import Mathlib

/-!
Verification of the reward-listing moderation backend (`server.js`).

The development shallowly embeds the moderation pipeline of the backend:
the heuristic scorer `evaluateText`, the BullMQ worker handler that drives a
listing through the `EM_REVISAO → PUBLICADA | BANIDA` state machine while
appending `moderacaoEvento` audit records, and the `POST /recompensas`
producer.  Stateful code is modelled by explicit state passing over a `Db`
record holding the `recompensa` table and the append-only `moderacaoEvento`
table; each Prisma call issued by the worker becomes an explicit `DbOp`, so
that partial failure (an operation sequence interrupted before completion)
can be expressed by executing only a prefix of the emitted operations.
-/

namespace Recomp

/-! ## Listing data model (`prisma.recompensa`, `prisma.moderacaoEvento`) -/

/-- Listing lifecycle status as used by `server.js`: listings are created with
`status: "EM_REVISAO"` and the worker moves them to `"PUBLICADA"` or
`"BANIDA"`. -/
inductive Status where
  | EM_REVISAO
  | PUBLICADA
  | BANIDA
deriving DecidableEq, Repr

/-- Fields of a `recompensa` row that the moderation pipeline reads or
writes: identity, creator, the moderated text (`titulo`, `descricao`),
`categoria`, lifecycle `status` and the optional `riskScore`.  The remaining
columns (valor, prazo, geo scope) are payload the pipeline never touches. -/
structure Recompensa where
  id : Nat
  criadorId : Nat
  titulo : String
  descricao : String
  categoria : String
  status : Status
  riskScore : Option Nat
deriving DecidableEq, Repr

/-- Row of the append-only `moderacaoEvento` table. -/
structure ModeracaoEvento where
  recompensaId : Nat
  recursoTipo : String
  recursoId : Nat
  acao : String
  motivo : String
deriving DecidableEq, Repr

/-- The two Prisma tables the worker mutates. -/
structure Db where
  recompensas : List Recompensa
  eventos : List ModeracaoEvento
deriving DecidableEq, Repr

/-! ## Heuristic scorer (`evaluateText`, lines 66-84 of `server.js`) -/

/-- The fixed banned wordlist `BANNED` of `server.js`. -/
def BANNED : List String :=
  [("matar"), ("assassinar"), ("sequestro"), ("drogas"), ("invadir conta"),
   ("hackear"), ("endereco residencial de"), ("cpf de"), ("chantagem"),
   ("espionar"), ("criança"), ("pornografia"), ("explosivo"), ("arma"),
   ("branco/negro/gay")]

/-- The fixed sensitive wordlist `SENSITIVE` of `server.js`. -/
def SENSITIVE : List String :=
  [("descobrir endereco"), ("seguir pessoa"), ("monitorar"),
   ("localizar pessoa"), ("documentos pessoais"), ("senha"),
   ("codigo 2fa"), ("dados bancarios")]

/-- JavaScript `String.prototype.toLowerCase` on one character, for the
ASCII and Latin-1 letters (the wordlists and all texts of interest are
drawn from these; `ç` of `criança` is already lower case). -/
def jsCharToLower (c : Char) : Char :=
  if ('A' ≤ c ∧ c ≤ 'Z') ∨ ('À' ≤ c ∧ c ≤ 'Þ' ∧ c ≠ '×') then
    Char.ofNat (c.toNat + 32)
  else c

/-- JavaScript `text.toLowerCase()`. -/
def jsToLowerCase (s : String) : String :=
  String.mk (s.data.map jsCharToLower)

/-- Does `w` occur as a contiguous run inside `t`, checked at every start
position? -/
def listContains (w : List Char) : List Char → Bool
  | [] => List.isPrefixOf w []
  | c :: rest => List.isPrefixOf w (c :: rest) || listContains w rest

/-- JavaScript `t.includes(w)`: `w` occurs in `t` as a contiguous
substring. -/
def includes (t w : String) : Bool :=
  listContains w.data t.data

/-- JavaScript `f.startsWith(pre)`. -/
def jsStartsWith (f pre : String) : Bool :=
  List.isPrefixOf pre.data f.data

/-! ### The currency regex `/\b(\d{1,3}(\.\d{3})*|\d+)(,\d{2})?\b/`

`RegExp.prototype.test` asks whether a match exists at some start position.
Backtracking order is irrelevant for a bare existence test, so the regex is
embedded by enumerating, from every start position, the set of remainders
reachable after each fragment and asking whether some parse reaches a final
word boundary.  Every parse of the pattern starts by consuming a digit and
ends having just consumed a digit, so the two `\b` anchors reduce to: the
character before the match start is absent or not a word character, and the
first unconsumed character is absent or not a word character. -/

/-- JavaScript regex `\d`. -/
def isDigitChar (c : Char) : Bool :=
  c.isDigit

/-- JavaScript regex word character `\w` (`[A-Za-z0-9_]`), which determines
the `\b` anchors. -/
def isWordChar (c : Char) : Bool :=
  c.isAlphanum || c == '_'

/-- Remainders reachable by consuming zero or more `(\.\d{3})` groups. -/
def dotGroupRems : List Char → List (List Char)
  | c :: d1 :: d2 :: d3 :: rest =>
    if (c == '.') && isDigitChar d1 && isDigitChar d2 && isDigitChar d3 then
      (c :: d1 :: d2 :: d3 :: rest) :: dotGroupRems rest
    else [c :: d1 :: d2 :: d3 :: rest]
  | cs => [cs]

/-- Remainders reachable by consuming one or more leading digits
(the `\d+` alternative); successive entries consume 1, 2, 3, … digits. -/
def digitSuffixes : List Char → List (List Char)
  | [] => []
  | c :: rest => if isDigitChar c then rest :: digitSuffixes rest else []

/-- Remainders reachable via the alternative `\d{1,3}(\.\d{3})*`. -/
def alt1Rems (cs : List Char) : List (List Char) :=
  List.flatMap ((digitSuffixes cs).take 3) dotGroupRems

/-- Remainders reachable via the whole group `(\d{1,3}(\.\d{3})*|\d+)`. -/
def group1Rems (cs : List Char) : List (List Char) :=
  alt1Rems cs ++ digitSuffixes cs

/-- Remainders reachable via the optional `(,\d{2})?`. -/
def commaRems : List Char → List (List Char)
  | c :: a :: b :: rest =>
    if (c == ',') && isDigitChar a && isDigitChar b then
      [c :: a :: b :: rest, rest]
    else [c :: a :: b :: rest]
  | cs => [cs]

/-- Final `\b`: the previous consumed character is always a digit, so the
boundary holds exactly when input is exhausted or continues with a
non-word character. -/
def boundaryAfterOk : List Char → Bool
  | [] => true
  | c :: _ => !isWordChar c

/-- Does the regex match starting exactly at the head of `cs`, where
`prevIsWord` tells whether the character before `cs` is a word character
(`false` at the start of the text)?  The matched portion starts with a
digit, so the leading `\b` holds exactly when `prevIsWord = false`. -/
def matchFrom (prevIsWord : Bool) (cs : List Char) : Bool :=
  !prevIsWord && (group1Rems cs).any (fun r => (commaRems r).any boundaryAfterOk)

/-- Scan all start positions, tracking whether the previous character is a
word character. -/
def currencyTestAux : Bool → List Char → Bool
  | _, [] => false
  | prevIsWord, c :: rest =>
    matchFrom prevIsWord (c :: rest) || currencyTestAux (isWordChar c) rest

/-- JavaScript `/\b(\d{1,3}(\.\d{3})*|\d+)(,\d{2})?\b/.test(t)` (line 81 of
`server.js`). -/
def currencyTest (t : String) : Bool :=
  currencyTestAux false t.data

/-- JavaScript `t.includes("urgente") || t.includes("imediato")` (line 82 of
`server.js`). -/
def hasUrgency (t : String) : Bool :=
  includes t ("urgente") || includes t ("imediato")

/-- Result record of `evaluateText`: `{ score, flags }`. -/
structure EvalResult where
  score : Nat
  flags : List String
deriving DecidableEq, Repr

/-- One iteration of the wordlist loops of `evaluateText`:
`if (t.includes(w)) { flags.push(tag + w); score += bonus; }`. -/
def scanStep (t tag : String) (bonus : Nat) (acc : EvalResult) (w : String) :
    EvalResult :=
  if includes t w then ⟨acc.score + bonus, acc.flags ++ [tag ++ w]⟩ else acc

/-- The heuristic scorer `evaluateText` of `server.js` (lines 75-84):
lower-case the text, scan the `BANNED` list (flag `BANNED:<w>`, +100 each),
then the `SENSITIVE` list (flag `SENSITIVE:<w>`, +30 each), then +5 for the
currency regex and +5 for an urgency marker. -/
def evaluateText (text : String) : EvalResult :=
  let t := jsToLowerCase text
  let s1 := BANNED.foldl (scanStep t ("BANNED:") 100) ⟨0, []⟩
  let s2 := SENSITIVE.foldl (scanStep t ("SENSITIVE:") 30) s1
  let s3 : EvalResult := if currencyTest t then ⟨s2.score + 5, s2.flags⟩ else s2
  if hasUrgency t then ⟨s3.score + 5, s3.flags⟩ else s3

/-! ## Moderation worker (lines 96-151 of `server.js`) -/

/-- The full text the worker scores:
`` `${r.titulo}\n${r.descricao}` ``. -/
def fullTextOf (r : Recompensa) : String :=
  r.titulo ++ ("\n") ++ r.descricao

/-- A Prisma write issued by the worker handler: either
`prisma.recompensa.update({ where: { id }, data: { status, riskScore } })`
or `prisma.moderacaoEvento.create({ data: e })`.  The `update` is keyed on
`id` only, exactly as in the source — there is no condition on the current
status. -/
inductive DbOp where
  | updateRecompensa (id : Nat) (st : Status) (riskScore : Nat)
  | createEvento (e : ModeracaoEvento)
deriving DecidableEq, Repr

/-- Is the operation a `recompensa` update (a listing-store write)? -/
def isUpdateOp : DbOp → Bool
  | .updateRecompensa _ _ _ => true
  | .createEvento _ => false

/-- The sequence of Prisma writes the worker handler issues for a loaded
listing `r`, following the three decision tiers of `server.js`:
any `BANNED`-prefixed flag → update to `BANIDA` + `REJEITAR` event;
else `score >= 40` → `AJUSTAR` event only; else update to `PUBLICADA` +
`APROVAR` event with motive `"auto"`. -/
def handlerOps (r : Recompensa) : List DbOp :=
  if (evaluateText (fullTextOf r)).flags.any (fun f => jsStartsWith f ("BANNED")) then
    [DbOp.updateRecompensa r.id Status.BANIDA (evaluateText (fullTextOf r)).score,
     DbOp.createEvento
       ⟨r.id, ("Recompensa"), r.id, ("REJEITAR"),
        String.intercalate (", ") (evaluateText (fullTextOf r)).flags⟩]
  else if 40 ≤ (evaluateText (fullTextOf r)).score then
    [DbOp.createEvento
       ⟨r.id, ("Recompensa"), r.id, ("AJUSTAR"),
        String.intercalate (", ") (evaluateText (fullTextOf r)).flags⟩]
  else
    [DbOp.updateRecompensa r.id Status.PUBLICADA (evaluateText (fullTextOf r)).score,
     DbOp.createEvento
       ⟨r.id, ("Recompensa"), r.id, ("APROVAR"), ("auto")⟩]

/-- Effect of the listing update on one row: rewrite `status`/`riskScore`
when the row's `id` matches the `where` clause, leave the row alone
otherwise. -/
def updFun (i : Nat) (st : Status) (sc : Nat) (x : Recompensa) : Recompensa :=
  if x.id = i then { x with status := st, riskScore := some sc } else x

/-- Execute one Prisma write against the database state.  The listing
update rewrites `status`/`riskScore` of every row whose `id` matches (the
`where` clause is on `id` alone); the event create appends to the
append-only table. -/
def applyOp (db : Db) : DbOp → Db
  | .updateRecompensa i st sc =>
    { db with recompensas := db.recompensas.map (updFun i st sc) }
  | .createEvento e => { db with eventos := db.eventos ++ [e] }

/-- `prisma.recompensa.findUnique({ where: { id } })`. -/
def findRec (db : Db) (id : Nat) : Option Recompensa :=
  db.recompensas.find? (fun x => x.id == id)

/-- A complete, successful worker run for one delivered moderation job:
load the listing by id, return immediately when absent, otherwise execute
every write of the decision tier in order. -/
def workerStep (db : Db) (recompensaId : Nat) : Db :=
  match findRec db recompensaId with
  | none => db
  | some r => (handlerOps r).foldl applyOp db

/-- A worker run whose `(k+1)`-th write fails: the first `k` writes took
effect and the handler then raised, so the job will be retried.  The state
visible after the failure is the fold over the length-`k` prefix. -/
def workerStepUpTo (db : Db) (recompensaId k : Nat) : Db :=
  match findRec db recompensaId with
  | none => db
  | some r => ((handlerOps r).take k).foldl applyOp db

/-! ## Producer: `POST /recompensas` (lines 211-235 of `server.js`) -/

/-- The request body fields the route destructures; each may be absent. -/
structure CreateInput where
  titulo : Option String
  descricao : Option String
  categoria : Option String
  valorCentavos : Option Nat
  prazoISO : Option String
  scope : Option String
  uf : Option String
  municipioIbge : Option String
  latitude : Option Int
  longitude : Option Int
  raioMetros : Option Nat
deriving DecidableEq, Repr

/-- Modelled from the spec: the Prisma schema deciding which `create`
payloads the listing store rejects is not part of the source tree (only the
route that calls `prisma.recompensa.create` is).  Spec §6 lists title,
description, category, amount, deadline and scope as the required fields of
`createListing`, so the store's create succeeds exactly when all of them
are present. -/
def requiredFieldsOk (i : CreateInput) : Bool :=
  i.titulo.isSome && i.descricao.isSome && i.categoria.isSome &&
    i.valorCentavos.isSome && i.prazoISO.isSome && i.scope.isSome

/-- The listing row inserted by `prisma.recompensa.create` in the route:
`status: "EM_REVISAO"` is hard-coded and no `riskScore` is supplied. -/
def mkRecompensa (id criadorId : Nat) (titulo descricao categoria : String) :
    Recompensa :=
  ⟨id, criadorId, titulo, descricao, categoria, Status.EM_REVISAO, none⟩

/-- Producer-visible state: the database plus the `moderation` queue,
holding the `recompensaId` payloads of the enqueued jobs. -/
structure ApiState where
  db : Db
  queue : List Nat
deriving DecidableEq, Repr

/-- The `POST /recompensas` handler body: attempt the insert (the whole
body sits in a `try`, so a rejected create produces the 400 error response
before `enqueueRecompensaModeration` ever runs); on success enqueue a
moderation job carrying the new id and answer `{ id, status }`.  `newId` is
the fresh primary key the store assigns. -/
def postRecompensas (st : ApiState) (userId : Nat) (input : CreateInput)
    (newId : Nat) : ApiState × Except String (Nat × Status) :=
  if requiredFieldsOk input then
    let r := mkRecompensa newId userId (input.titulo.getD (""))
      (input.descricao.getD ("")) (input.categoria.getD (""))
    (⟨{ recompensas := st.db.recompensas ++ [r], eventos := st.db.eventos },
      st.queue ++ [newId]⟩,
     Except.ok (newId, r.status))
  else (st, Except.error ("ValidationError"))

/-! ## The argument of `evaluateText` in dynamic JavaScript -/

/-- JavaScript values that can reach `evaluateText(text)`. -/
inductive JsValue where
  | jsNull
  | jsUndefined
  | jsStr (s : String)
  | jsNum (n : Int)
  | jsBool (b : Bool)
deriving DecidableEq, Repr

/-- JavaScript truthiness, as used by `text || ""`. -/
def jsTruthy : JsValue → Bool
  | .jsNull => false
  | .jsUndefined => false
  | .jsStr s => !s.isEmpty
  | .jsNum n => n != 0
  | .jsBool b => b

/-- The `String(·)` coercion (integral numbers render as in Lean). -/
def jsToString : JsValue → String
  | .jsNull => ("null")
  | .jsUndefined => ("undefined")
  | .jsStr s => s
  | .jsNum n => toString n
  | .jsBool b => cond b ("true") ("false")

/-- `String(text || "")`: a falsy argument is replaced by the empty string
before the `String` coercion. -/
def jsCoerce (v : JsValue) : String :=
  jsToString (if jsTruthy v then v else JsValue.jsStr (""))

/-- `evaluateText` as called on a dynamic JavaScript value. -/
def evaluateTextJs (v : JsValue) : EvalResult :=
  evaluateText (jsCoerce v)

/-! ## Reachable database states

A database state is reachable when it arises from the empty state through
the operations of the backend: creating a listing through the producer
(with a fresh primary key, as assigned by the store's autoincrement), a
fully successful worker run, or a worker run interrupted by a failing
write.  Listing text is immutable: no route of `server.js` ever rewrites
`titulo` or `descricao`. -/
inductive Reach : Db → Prop where
  | init : Reach ⟨[], []⟩
  | create (db : Db) (id criadorId : Nat) (titulo descricao categoria : String)
      (hdb : Reach db) (hfresh : ∀ x ∈ db.recompensas, x.id ≠ id) :
      Reach ⟨db.recompensas ++ [mkRecompensa id criadorId titulo descricao categoria],
             db.eventos⟩
  | work (db : Db) (jid : Nat) (hdb : Reach db) : Reach (workerStep db jid)
  | workUpTo (db : Db) (jid k : Nat) (hdb : Reach db) :
      Reach (workerStepUpTo db jid k)

/-- Ids are unique in the listing table (primary key). -/
def NodupIds (db : Db) : Prop :=
  (db.recompensas.map Recompensa.id).Nodup

/-- Relation between one listing's lifecycle fields and its own immutable
text: either it still awaits review with no risk score, or it sits in the
terminal state dictated by the deterministic decision on its text, with the
recomputed score persisted.  Listings parked by the ADJUST tier stay in the
first disjunct forever. -/
def ListingInv (r : Recompensa) : Prop :=
  (r.status = Status.EM_REVISAO ∧ r.riskScore = none) ∨
  ((evaluateText (fullTextOf r)).flags.any
      (fun f => jsStartsWith f ("BANNED")) = true ∧
    r.status = Status.BANIDA ∧
    r.riskScore = some (evaluateText (fullTextOf r)).score) ∨
  ((evaluateText (fullTextOf r)).flags.any
      (fun f => jsStartsWith f ("BANNED")) = false ∧
    (evaluateText (fullTextOf r)).score < 40 ∧
    r.status = Status.PUBLICADA ∧
    r.riskScore = some (evaluateText (fullTextOf r)).score)

/-- Global invariant: primary keys are unique and every row is related to
its own text. -/
def DbInv (db : Db) : Prop :=
  NodupIds db ∧ ∀ r ∈ db.recompensas, ListingInv r

/-! ## Concrete scenarios

Small database states used to instantiate the general theorems: the
spec's concrete examples and the minimal states exercising redelivery and
partial failure. -/

/-- The listing of spec scenario 1: an innocuous lost-dog reward. -/
def dogListing : Recompensa :=
  ⟨1, 1, ("Help find my dog"), ("Reward for safe return, urgent!"),
   ("pets"), Status.EM_REVISAO, none⟩

/-- One-listing database holding `dogListing`. -/
def dogDb : Db := ⟨[dogListing], []⟩

/-- The listing of spec scenario 2: description containing `sequestro`. -/
def seqListing : Recompensa :=
  ⟨1, 1, ("x"), ("sequestro"), ("c"), Status.EM_REVISAO, none⟩

/-- One-listing database holding `seqListing`. -/
def seqDb : Db := ⟨[seqListing], []⟩

/-- The listing of spec scenario 3: two sensitive hits, score 60. -/
def adjListing : Recompensa :=
  ⟨1, 1, ("ajuda"), ("monitorar a senha"), ("c"), Status.EM_REVISAO, none⟩

/-- One-listing database holding `adjListing`. -/
def adjDb : Db := ⟨[adjListing], []⟩

/-- A clean listing (score 0) that the worker publishes. -/
def pubListing : Recompensa :=
  ⟨1, 1, ("a"), ("b"), ("c"), Status.EM_REVISAO, none⟩

/-- One-listing database holding `pubListing`, before moderation. -/
def pubDb : Db := ⟨[pubListing], []⟩

/-- `pubDb` after one successful worker run: the listing is `PUBLICADA`. -/
def pubDbDone : Db := workerStep pubDb 1

/-- The `pubListing` row after its terminal transition. -/
def pubListingDone : Recompensa :=
  ⟨1, 1, ("a"), ("b"), ("c"), Status.PUBLICADA, some 0⟩

/-! ## Closed form of the scorer -/

/-- The banned terms occurring in the lower-cased text, in wordlist order. -/
def matchedBanned (text : String) : List String :=
  BANNED.filter (fun w => includes (jsToLowerCase text) w)

/-- The sensitive terms occurring in the lower-cased text, in wordlist
order. -/
def matchedSensitive (text : String) : List String :=
  SENSITIVE.filter (fun w => includes (jsToLowerCase text) w)

theorem foldl_scanStep (t tag : String) (bonus : Nat) (ws : List String)
    (acc : EvalResult) :
    ws.foldl (scanStep t tag bonus) acc =
      ⟨acc.score + bonus * (ws.filter (fun w => includes t w)).length,
       acc.flags ++ (ws.filter (fun w => includes t w)).map (fun w => tag ++ w)⟩ := by
  induction ws generalizing acc with
  | nil => simp
  | cons w ws ih =>
    rw [List.foldl_cons, ih]
    cases h : includes t w with
    | false => simp [scanStep, h, List.filter_cons]
    | true =>
      simp [scanStep, h, List.filter_cons, EvalResult.mk.injEq]
      ring

theorem evaluateText_eq (text : String) :
    evaluateText text =
      ⟨100 * (matchedBanned text).length + 30 * (matchedSensitive text).length +
         (if currencyTest (jsToLowerCase text) then 5 else 0) +
         (if hasUrgency (jsToLowerCase text) then 5 else 0),
       (matchedBanned text).map (fun w => ("BANNED:") ++ w) ++
         (matchedSensitive text).map (fun w => ("SENSITIVE:") ++ w)⟩ := by
  unfold evaluateText matchedBanned matchedSensitive
  simp only [foldl_scanStep]
  by_cases hc : currencyTest (jsToLowerCase text) <;>
    by_cases hu : hasUrgency (jsToLowerCase text) <;>
      simp [hc, hu, EvalResult.mk.injEq]

theorem evaluateText_flags (text : String) :
    (evaluateText text).flags =
      (matchedBanned text).map (fun w => ("BANNED:") ++ w) ++
        (matchedSensitive text).map (fun w => ("SENSITIVE:") ++ w) := by
  rw [evaluateText_eq]

theorem evaluateText_score (text : String) :
    (evaluateText text).score =
      100 * (matchedBanned text).length + 30 * (matchedSensitive text).length +
        (if currencyTest (jsToLowerCase text) then 5 else 0) +
        (if hasUrgency (jsToLowerCase text) then 5 else 0) := by
  rw [evaluateText_eq]

theorem bannedListNodup : BANNED.Nodup := by decide

theorem sensitiveListNodup : SENSITIVE.Nodup := by decide

theorem tag_append_injective (tag : String) :
    Function.Injective (fun w : String => tag ++ w) := by
  intro a b h
  apply String.ext
  have h' := congrArg String.data h
  simpa [String.data_append] using h'

theorem banned_flag_ne_sensitive_flag (x y : String) :
    ("BANNED:") ++ x ≠ ("SENSITIVE:") ++ y := by
  intro h
  have h' := congrArg String.data h
  rw [String.data_append, String.data_append] at h'
  have hB : ("BANNED:" : String).data = ['B', 'A', 'N', 'N', 'E', 'D', ':'] := rfl
  have hS : ("SENSITIVE:" : String).data =
      ['S', 'E', 'N', 'S', 'I', 'T', 'I', 'V', 'E', ':'] := rfl
  rw [hB, hS] at h'
  simp at h'

theorem evaluateText_flags_nodup (text : String) :
    (evaluateText text).flags.Nodup := by
  rw [evaluateText_flags]
  refine List.Nodup.append ?_ ?_ ?_
  · exact (bannedListNodup.filter _).map (tag_append_injective _)
  · exact (sensitiveListNodup.filter _).map (tag_append_injective _)
  · intro a ha hb
    rcases List.mem_map.mp ha with ⟨x, _, rfl⟩
    rcases List.mem_map.mp hb with ⟨y, _, hxy⟩
    exact banned_flag_ne_sensitive_flag x y hxy.symm

theorem jsStartsWith_banned_flag (w : String) :
    jsStartsWith (("BANNED:") ++ w) ("BANNED") = true := by
  cases w with
  | mk l => rfl

theorem jsStartsWith_sensitive_flag (w : String) :
    jsStartsWith (("SENSITIVE:") ++ w) ("BANNED") = false := by
  cases w with
  | mk l => rfl

/-- The worker's guard `flags.some(f => f.startsWith("BANNED"))` fires
exactly when some banned term occurs in the lower-cased text. -/
theorem banned_guard_iff (text : String) :
    ((evaluateText text).flags.any (fun f => jsStartsWith f ("BANNED")) = true) ↔
      matchedBanned text ≠ [] := by
  rw [evaluateText_flags, List.any_append, List.any_map, List.any_map]
  simp only [Function.comp_def, jsStartsWith_banned_flag,
    jsStartsWith_sensitive_flag]
  cases hmb : matchedBanned text <;> simp

/-! ## Worker lemmas -/

theorem updFun_id (i : Nat) (st : Status) (sc : Nat) (x : Recompensa) :
    (updFun i st sc x).id = x.id := by
  unfold updFun; split <;> rfl

theorem updFun_titulo (i : Nat) (st : Status) (sc : Nat) (x : Recompensa) :
    (updFun i st sc x).titulo = x.titulo := by
  unfold updFun; split <;> rfl

theorem updFun_descricao (i : Nat) (st : Status) (sc : Nat) (x : Recompensa) :
    (updFun i st sc x).descricao = x.descricao := by
  unfold updFun; split <;> rfl

theorem updFun_updFun (i : Nat) (st st' : Status) (sc sc' : Nat)
    (x : Recompensa) :
    updFun i st sc (updFun i st' sc' x) = updFun i st sc x := by
  by_cases h : x.id = i <;> simp [updFun, h]

theorem fullTextOf_updFun (i : Nat) (st : Status) (sc : Nat) (x : Recompensa) :
    fullTextOf (updFun i st sc x) = fullTextOf x := by
  unfold fullTextOf
  rw [updFun_titulo, updFun_descricao]

theorem handlerOps_updFun (i : Nat) (st : Status) (sc : Nat) (r : Recompensa) :
    handlerOps (updFun i st sc r) = handlerOps r := by
  unfold handlerOps
  rw [fullTextOf_updFun, updFun_id]

theorem findRec_id {db : Db} {jid : Nat} {r : Recompensa}
    (h : findRec db jid = some r) : r.id = jid := by
  have h' := List.find?_some h
  simpa using h'

theorem findRec_memRec {db : Db} {jid : Nat} {r : Recompensa}
    (h : findRec db jid = some r) : r ∈ db.recompensas :=
  List.mem_of_find?_eq_some h

theorem findRec_update (db : Db) (i : Nat) (st : Status) (sc : Nat)
    (jid : Nat) :
    findRec (applyOp db (DbOp.updateRecompensa i st sc)) jid =
      (findRec db jid).map (updFun i st sc) := by
  unfold findRec applyOp
  have hp : ((fun x : Recompensa => x.id == jid) ∘ updFun i st sc) =
      (fun x : Recompensa => x.id == jid) := by
    funext x
    simp [Function.comp_def, updFun_id]
  rw [List.find?_map, hp]

theorem findRec_createEvento (db : Db) (e : ModeracaoEvento) (jid : Nat) :
    findRec (applyOp db (DbOp.createEvento e)) jid = findRec db jid := rfl

theorem recompensas_createEvento (db : Db) (e : ModeracaoEvento) :
    (applyOp db (DbOp.createEvento e)).recompensas = db.recompensas := rfl

theorem eventos_update (db : Db) (i : Nat) (st : Status) (sc : Nat) :
    (applyOp db (DbOp.updateRecompensa i st sc)).eventos = db.eventos := rfl

theorem eventos_createEvento (db : Db) (e : ModeracaoEvento) :
    (applyOp db (DbOp.createEvento e)).eventos = db.eventos ++ [e] := rfl

theorem handlerOps_banned {r : Recompensa}
    (h : (evaluateText (fullTextOf r)).flags.any
        (fun f => jsStartsWith f ("BANNED")) = true) :
    handlerOps r =
      [DbOp.updateRecompensa r.id Status.BANIDA
         (evaluateText (fullTextOf r)).score,
       DbOp.createEvento
         ⟨r.id, ("Recompensa"), r.id, ("REJEITAR"),
          String.intercalate (", ") (evaluateText (fullTextOf r)).flags⟩] := by
  simp [handlerOps, h]

theorem handlerOps_adjust {r : Recompensa}
    (h1 : (evaluateText (fullTextOf r)).flags.any
        (fun f => jsStartsWith f ("BANNED")) = false)
    (h2 : 40 ≤ (evaluateText (fullTextOf r)).score) :
    handlerOps r =
      [DbOp.createEvento
         ⟨r.id, ("Recompensa"), r.id, ("AJUSTAR"),
          String.intercalate (", ") (evaluateText (fullTextOf r)).flags⟩] := by
  simp [handlerOps, h1, h2]

theorem handlerOps_approve {r : Recompensa}
    (h1 : (evaluateText (fullTextOf r)).flags.any
        (fun f => jsStartsWith f ("BANNED")) = false)
    (h2 : ¬ 40 ≤ (evaluateText (fullTextOf r)).score) :
    handlerOps r =
      [DbOp.updateRecompensa r.id Status.PUBLICADA
         (evaluateText (fullTextOf r)).score,
       DbOp.createEvento
         ⟨r.id, ("Recompensa"), r.id, ("APROVAR"), ("auto")⟩] := by
  simp [handlerOps, h1, h2]

theorem handlerOps_take_two (r : Recompensa) :
    (handlerOps r).take 2 = handlerOps r := by
  unfold handlerOps
  split
  · rfl
  · split <;> rfl

theorem workerStep_eq_upTo_two (db : Db) (jid : Nat) :
    workerStep db jid = workerStepUpTo db jid 2 := by
  unfold workerStep workerStepUpTo
  cases h : findRec db jid with
  | none => rfl
  | some r =>
    change List.foldl applyOp db (handlerOps r) =
      List.foldl applyOp db ((handlerOps r).take 2)
    rw [handlerOps_take_two]

/-! ## Reachability invariant -/

theorem nodupIds_update (db : Db) (i : Nat) (st : Status) (sc : Nat)
    (h : NodupIds db) :
    NodupIds (applyOp db (DbOp.updateRecompensa i st sc)) := by
  unfold NodupIds applyOp
  rw [List.map_map]
  have hcomp : (Recompensa.id ∘ updFun i st sc) = Recompensa.id := by
    funext x
    exact updFun_id i st sc x
  rw [hcomp]
  exact h

theorem dbInv_createEvento (db : Db) (e : ModeracaoEvento) (h : DbInv db) :
    DbInv (applyOp db (DbOp.createEvento e)) :=
  h

theorem listingInv_updFun_banned (r : Recompensa)
    (hban : (evaluateText (fullTextOf r)).flags.any
        (fun f => jsStartsWith f ("BANNED")) = true) :
    ListingInv (updFun r.id Status.BANIDA (evaluateText (fullTextOf r)).score r) := by
  right; left
  rw [fullTextOf_updFun]
  refine ⟨hban, ?_, ?_⟩ <;> simp [updFun]

theorem listingInv_updFun_approve (r : Recompensa)
    (h1 : (evaluateText (fullTextOf r)).flags.any
        (fun f => jsStartsWith f ("BANNED")) = false)
    (h2 : ¬ 40 ≤ (evaluateText (fullTextOf r)).score) :
    ListingInv (updFun r.id Status.PUBLICADA (evaluateText (fullTextOf r)).score r) := by
  right; right
  rw [fullTextOf_updFun]
  refine ⟨h1, by omega, ?_, ?_⟩ <;> simp [updFun]

theorem dbInv_update (db : Db) (r : Recompensa) (st : Status) (sc : Nat)
    (h : DbInv db) (hmem : r ∈ db.recompensas)
    (hupd : ListingInv (updFun r.id st sc r)) :
    DbInv (applyOp db (DbOp.updateRecompensa r.id st sc)) := by
  obtain ⟨hnd, hinv⟩ := h
  refine ⟨nodupIds_update db _ _ _ hnd, ?_⟩
  intro x hx
  simp only [applyOp] at hx
  rcases List.mem_map.mp hx with ⟨y, hy, rfl⟩
  by_cases hxy : y.id = r.id
  · have hyr : y = r := List.inj_on_of_nodup_map hnd hy hmem hxy
    rw [hyr]
    exact hupd
  · rw [show updFun r.id st sc y = y from by simp [updFun, hxy]]
    exact hinv y hy

theorem dbInv_workerStepUpTo (db : Db) (jid k : Nat) (h : DbInv db) :
    DbInv (workerStepUpTo db jid k) := by
  unfold workerStepUpTo
  cases hf : findRec db jid with
  | none => exact h
  | some r =>
    change DbInv (((handlerOps r).take k).foldl applyOp db)
    have hmem := findRec_memRec hf
    by_cases hban : (evaluateText (fullTextOf r)).flags.any
        (fun f => jsStartsWith f ("BANNED")) = true
    · rw [handlerOps_banned hban]
      match k with
      | 0 => exact h
      | 1 =>
        simp only [List.take_succ_cons, List.take_zero, List.foldl_cons,
          List.foldl_nil]
        exact dbInv_update db r _ _ h hmem (listingInv_updFun_banned r hban)
      | (n + 2) =>
        simp only [List.take_succ_cons, List.take_nil, List.foldl_cons,
          List.foldl_nil]
        exact dbInv_createEvento _ _
          (dbInv_update db r _ _ h hmem (listingInv_updFun_banned r hban))
    · rw [Bool.not_eq_true] at hban
      by_cases h40 : 40 ≤ (evaluateText (fullTextOf r)).score
      · rw [handlerOps_adjust hban h40]
        match k with
        | 0 => exact h
        | (n + 1) =>
          simp only [List.take_succ_cons, List.take_nil, List.foldl_cons,
            List.foldl_nil]
          exact dbInv_createEvento _ _ h
      · rw [handlerOps_approve hban h40]
        match k with
        | 0 => exact h
        | 1 =>
          simp only [List.take_succ_cons, List.take_zero, List.foldl_cons,
            List.foldl_nil]
          exact dbInv_update db r _ _ h hmem
            (listingInv_updFun_approve r hban h40)
        | (n + 2) =>
          simp only [List.take_succ_cons, List.take_nil, List.foldl_cons,
            List.foldl_nil]
          exact dbInv_createEvento _ _
            (dbInv_update db r _ _ h hmem
              (listingInv_updFun_approve r hban h40))

theorem dbInv_workerStep (db : Db) (jid : Nat) (h : DbInv db) :
    DbInv (workerStep db jid) := by
  rw [workerStep_eq_upTo_two]
  exact dbInv_workerStepUpTo db jid 2 h

theorem reach_dbInv {db : Db} (h : Reach db) : DbInv db := by
  induction h with
  | init => exact ⟨List.nodup_nil, by intro r hr; cases hr⟩
  | create db id criadorId titulo descricao categoria hdb hfresh ih =>
    obtain ⟨hnd, hinv⟩ := ih
    constructor
    · unfold NodupIds
      simp only [List.map_append, List.map_cons, List.map_nil]
      rw [List.nodup_append]
      refine ⟨hnd, List.nodup_singleton _, ?_⟩
      intro a ha hb
      rcases List.mem_map.mp ha with ⟨x, hx, rfl⟩
      simp only [List.mem_singleton] at hb
      exact hfresh x hx (by simpa [mkRecompensa] using hb)
    · intro r hr
      rcases List.mem_append.mp hr with h1 | h2
      · exact hinv r h1
      · rw [List.mem_singleton.mp h2]
        exact Or.inl ⟨rfl, rfl⟩
  | work db jid hdb ih => exact dbInv_workerStep db jid ih
  | workUpTo db jid k hdb ih => exact dbInv_workerStepUpTo db jid k ih

/-! ## Lookup and idempotence lemmas -/

theorem find?_id_of_mem_nodup {l : List Recompensa}
    (hnd : (l.map Recompensa.id).Nodup) {r : Recompensa} (hr : r ∈ l) :
    l.find? (fun x => x.id == r.id) = some r := by
  induction l with
  | nil => cases hr
  | cons a l ih =>
    by_cases ha : a.id = r.id
    · have har : a = r :=
        List.inj_on_of_nodup_map hnd (List.mem_cons_self a l) hr ha
      rw [List.find?_cons_of_pos _ (by simp [ha]), har]
    · have hrl : r ∈ l := by
        rcases List.mem_cons.mp hr with h | h
        · exact absurd (by rw [h]) ha
        · exact h
      rw [List.find?_cons_of_neg _ (by simp [ha])]
      refine ih ?_ hrl
      rw [List.map_cons] at hnd
      exact hnd.of_cons

theorem findRec_of_mem_nodup {db : Db} (hnd : NodupIds db) {r : Recompensa}
    (hr : r ∈ db.recompensas) : findRec db r.id = some r :=
  find?_id_of_mem_nodup hnd hr

theorem workerStep_found {db : Db} {jid : Nat} {r : Recompensa}
    (hfind : findRec db jid = some r) :
    workerStep db jid = (handlerOps r).foldl applyOp db := by
  unfold workerStep
  rw [hfind]

theorem workerStepUpTo_found {db : Db} {jid : Nat} {r : Recompensa} (k : Nat)
    (hfind : findRec db jid = some r) :
    workerStepUpTo db jid k = ((handlerOps r).take k).foldl applyOp db := by
  unfold workerStepUpTo
  rw [hfind]

theorem updFun_self (r : Recompensa) (st : Status) (sc : Nat)
    (h1 : r.status = st) (h2 : r.riskScore = some sc) :
    updFun r.id st sc r = r := by
  cases r
  simp_all [updFun]

theorem applyOp_update_idem (db : Db) (i : Nat) (st : Status) (sc : Nat) :
    applyOp (applyOp db (DbOp.updateRecompensa i st sc))
        (DbOp.updateRecompensa i st sc) =
      applyOp db (DbOp.updateRecompensa i st sc) := by
  simp only [applyOp]
  have hgg : updFun i st sc ∘ updFun i st sc = updFun i st sc :=
    funext fun x => updFun_updFun i st st sc sc x
  rw [List.map_map, hgg]

theorem findRec_preserved_foldl (db : Db) (r : Recompensa) (ops : List DbOp)
    (hfr : findRec db r.id = some r)
    (hfix : ∀ i st sc, DbOp.updateRecompensa i st sc ∈ ops →
      updFun i st sc r = r) :
    findRec (ops.foldl applyOp db) r.id = some r := by
  induction ops generalizing db with
  | nil => exact hfr
  | cons op ops ih =>
    rw [List.foldl_cons]
    refine ih _ ?_ (fun i st sc hm => hfix i st sc (List.mem_cons_of_mem _ hm))
    cases op with
    | createEvento e =>
      rw [findRec_createEvento]
      exact hfr
    | updateRecompensa i st sc =>
      rw [findRec_update, hfr, Option.map_some',
        hfix i st sc (List.mem_cons_self _ _)]

theorem length_filter_le_of_mem_imp {l : List String} {p q : String → Bool}
    (h : ∀ a ∈ l, p a = true → q a = true) :
    (l.filter p).length ≤ (l.filter q).length := by
  induction l with
  | nil => simp
  | cons a l ih =>
    have ih' := ih (fun x hx => h x (List.mem_cons_of_mem a hx))
    simp only [List.filter_cons]
    by_cases hp : p a = true
    · rw [if_pos hp, if_pos (h a (List.mem_cons_self a l) hp)]
      simpa using ih'
    · rw [if_neg hp]
      split
      · exact Nat.le_succ_of_le ih'
      · exact ih'

/-! ## Claim theorems -/

/-- C4: `evaluate(text)` lower-cases the text, then for each banned term
present as a substring appends `BANNED:<term>` and adds 100, then for each
sensitive term appends `SENSITIVE:<term>` and adds 30, adds 5 for a
currency-like numeral pattern and 5 for an urgency marker; flags keep the
first-match order of list traversal and each term contributes at most
once. -/
theorem claim_scorer_closed_form (text : String) :
    (evaluateText text).flags =
        (matchedBanned text).map (fun w => ("BANNED:") ++ w) ++
          (matchedSensitive text).map (fun w => ("SENSITIVE:") ++ w) ∧
      (evaluateText text).score =
        100 * (matchedBanned text).length +
          30 * (matchedSensitive text).length +
          (if currencyTest (jsToLowerCase text) then 5 else 0) +
          (if hasUrgency (jsToLowerCase text) then 5 else 0) ∧
      (evaluateText text).flags.Nodup :=
  ⟨evaluateText_flags text, evaluateText_score text, evaluateText_flags_nodup text⟩

/-- C10: `evaluateText` is total on dynamic input: `null` and `undefined`
coerce to the empty string (via `String(text || "")`), every value passes
through the same total coercion, and the empty string yields score 0 with
no flags. -/
theorem claim_evaluate_total_on_js :
    evaluateTextJs JsValue.jsNull = evaluateText ("") ∧
      evaluateTextJs JsValue.jsUndefined = evaluateText ("") ∧
      evaluateText ("") = ⟨0, []⟩ ∧
      ∀ v : JsValue, evaluateTextJs v = evaluateText (jsCoerce v) :=
  ⟨rfl, rfl, by decide, fun _ => rfl⟩

/-- C8: a moderation job whose listing id is absent from the store
completes as a no-op: the database is unchanged whether the run is complete
or interrupted at any point, and no write is even attempted. -/
theorem claim_missing_listing_noop (db : Db) (jid : Nat)
    (h : findRec db jid = none) (k : Nat) :
    workerStep db jid = db ∧ workerStepUpTo db jid k = db := by
  unfold workerStep workerStepUpTo
  rw [h]
  exact ⟨rfl, rfl⟩

/-- Witness for C8 at a concrete store. -/
theorem claim_missing_listing_noop_witness :
    workerStep ⟨[], []⟩ 7 = (⟨[], []⟩ : Db) ∧
      workerStepUpTo ⟨[], []⟩ 7 0 = (⟨[], []⟩ : Db) :=
  claim_missing_listing_noop ⟨[], []⟩ 7 (by decide) 0

/-- C6 counterexample: the spec scenario text scores 0, not ≥ 5 — the
urgency markers of the code are the Portuguese `urgente`/`imediato`, which
`urgent!` does not contain. -/
theorem claim_dog_scenario_counterexample :
    evaluateText (fullTextOf dogListing) = ⟨0, []⟩ ∧
      ¬ 5 ≤ (evaluateText (fullTextOf dogListing)).score := by
  decide

/-- C6 amended: the scenario scores 0 (still below 40, with no flags), so
the worker transitions the listing to `PUBLICADA` and appends the
`APROVAR`/`auto` event. -/
theorem claim_dog_scenario_amended :
    (evaluateText (fullTextOf dogListing)).score = 0 ∧
      (evaluateText (fullTextOf dogListing)).score < 40 ∧
      workerStep dogDb 1 =
        ⟨[⟨1, 1, ("Help find my dog"), ("Reward for safe return, urgent!"),
           ("pets"), Status.PUBLICADA, some 0⟩],
         [⟨1, ("Recompensa"), 1, ("APROVAR"), ("auto")⟩]⟩ := by
  decide

/-- C7: a create request missing a required field fails with a
`ValidationError`, leaving the store and the queue untouched; a valid
request inserts the listing in `EM_REVISAO` with no riskScore, enqueues a
moderation job carrying the new id and answers the id and status. -/
theorem claim_create_validates (st : ApiState) (uid : Nat)
    (input : CreateInput) (newId : Nat) :
    (requiredFieldsOk input = false →
        postRecompensas st uid input newId =
          (st, Except.error ("ValidationError"))) ∧
      (requiredFieldsOk input = true →
        postRecompensas st uid input newId =
            (⟨⟨st.db.recompensas ++
                 [mkRecompensa newId uid (input.titulo.getD (""))
                    (input.descricao.getD ("")) (input.categoria.getD (""))],
               st.db.eventos⟩,
              st.queue ++ [newId]⟩,
             Except.ok (newId, Status.EM_REVISAO)) ∧
          (mkRecompensa newId uid (input.titulo.getD (""))
              (input.descricao.getD ("")) (input.categoria.getD (""))).status =
            Status.EM_REVISAO ∧
          (mkRecompensa newId uid (input.titulo.getD (""))
              (input.descricao.getD ("")) (input.categoria.getD (""))).riskScore =
            none) := by
  constructor
  · intro h
    simp [postRecompensas, h]
  · intro h
    refine ⟨?_, ?_, ?_⟩
    · simp [postRecompensas, h, mkRecompensa]
    · rfl
    · rfl

/-- Witness for C7: an empty request is rejected without effect, a full
request inserts and enqueues. -/
theorem claim_create_validates_witness :
    postRecompensas ⟨⟨[], []⟩, []⟩ 1
        ⟨none, none, none, none, none, none, none, none, none, none, none⟩ 1 =
      (⟨⟨[], []⟩, []⟩, Except.error ("ValidationError")) ∧
      postRecompensas ⟨⟨[], []⟩, []⟩ 1
          ⟨some ("t"), some ("d"), some ("c"), some 100, some ("2026-01-01"),
           some ("NACIONAL"), none, none, none, none, none⟩ 7 =
        (⟨⟨[mkRecompensa 7 1 ("t") ("d") ("c")], []⟩, [7]⟩,
         Except.ok (7, Status.EM_REVISAO)) := by
  constructor
  · exact (claim_create_validates _ _ _ _).1 (by decide)
  · exact ((claim_create_validates _ _ _ _).2 (by decide)).1

/-- C1: for every moderation job whose listing exists and whose text
contains at least one banned term, the flags hold exactly one
`BANNED:<term>` per matching term, and the worker rejects: the listing
transitions to `BANIDA` with the risk score persisted, and a `REJEITAR`
event whose motive is the joined flag list is appended — regardless of the
rest of the text. -/
theorem claim_banned_forces_reject (db : Db) (jid : Nat) (r : Recompensa)
    (hfind : findRec db jid = some r)
    (hban : ∃ w ∈ BANNED, includes (jsToLowerCase (fullTextOf r)) w = true) :
    (∀ w ∈ BANNED, includes (jsToLowerCase (fullTextOf r)) w = true →
        (evaluateText (fullTextOf r)).flags.count (("BANNED:") ++ w) = 1) ∧
      findRec (workerStep db jid) jid =
        some { r with status := Status.BANIDA,
                      riskScore := some (evaluateText (fullTextOf r)).score } ∧
      (workerStep db jid).eventos =
        db.eventos ++
          [⟨r.id, ("Recompensa"), r.id, ("REJEITAR"),
            String.intercalate (", ") (evaluateText (fullTextOf r)).flags⟩] := by
  obtain ⟨w0, hw0, hincl0⟩ := hban
  have hmb : matchedBanned (fullTextOf r) ≠ [] :=
    List.ne_nil_of_mem (List.mem_filter.mpr ⟨hw0, hincl0⟩)
  have hguard : (evaluateText (fullTextOf r)).flags.any
      (fun f => jsStartsWith f ("BANNED")) = true :=
    (banned_guard_iff _).mpr hmb
  refine ⟨?_, ?_, ?_⟩
  · intro w hw hincl
    rw [evaluateText_flags, List.count_append]
    have h1 : ((matchedBanned (fullTextOf r)).map
        (fun w => ("BANNED:") ++ w)).count (("BANNED:") ++ w) = 1 := by
      rw [List.count_map_of_injective _ _ (tag_append_injective _)]
      exact List.count_eq_one_of_mem (bannedListNodup.filter _)
        (List.mem_filter.mpr ⟨hw, hincl⟩)
    have h2 : ((matchedSensitive (fullTextOf r)).map
        (fun w => ("SENSITIVE:") ++ w)).count (("BANNED:") ++ w) = 0 := by
      rw [List.count_eq_zero]
      intro hmem
      rcases List.mem_map.mp hmem with ⟨y, _, hy⟩
      exact banned_flag_ne_sensitive_flag w y hy.symm
    rw [h1, h2]
  · rw [workerStep_found hfind, handlerOps_banned hguard]
    simp only [List.foldl_cons, List.foldl_nil]
    rw [findRec_createEvento, findRec_update, hfind, Option.map_some']
    congr 1
    simp [updFun]
  · rw [workerStep_found hfind, handlerOps_banned hguard]
    simp only [List.foldl_cons, List.foldl_nil]
    rw [eventos_createEvento, eventos_update]

/-- Witness for C1 at the `sequestro` scenario. -/
theorem claim_banned_forces_reject_witness :
    findRec (workerStep seqDb 1) 1 =
        some ⟨1, 1, ("x"), ("sequestro"), ("c"), Status.BANIDA, some 100⟩ ∧
      (workerStep seqDb 1).eventos =
        [⟨1, ("Recompensa"), 1, ("REJEITAR"), ("BANNED:sequestro")⟩] := by
  have h := claim_banned_forces_reject seqDb 1 seqListing (by decide) (by decide)
  exact ⟨h.2.1.trans (by decide), h.2.2.trans (by decide)⟩

/-- C5: every operation preserves the invariant that the risk score is set
exactly on the terminal statuses: on reachable states `riskScore` is some
iff the status is `PUBLICADA` or `BANIDA`; the producer's row starts in
`EM_REVISAO` with no score; the ADJUST tier (score ≥ 40, no banned flag)
mutates no listing and only appends an `AJUSTAR` event; and every
listing-store write the worker can issue carries a terminal status together
with a risk score. -/
theorem claim_riskscore_iff_terminal :
    (∀ db : Db, Reach db → ∀ r ∈ db.recompensas,
        (r.riskScore.isSome = true ↔
          (r.status = Status.PUBLICADA ∨ r.status = Status.BANIDA))) ∧
      (∀ id uid : Nat, ∀ t d c : String,
        (mkRecompensa id uid t d c).status = Status.EM_REVISAO ∧
          (mkRecompensa id uid t d c).riskScore = none) ∧
      (∀ db : Db, ∀ jid : Nat, ∀ r : Recompensa, findRec db jid = some r →
        (evaluateText (fullTextOf r)).flags.any
            (fun f => jsStartsWith f ("BANNED")) = false →
        40 ≤ (evaluateText (fullTextOf r)).score →
        (workerStep db jid).recompensas = db.recompensas ∧
          (workerStep db jid).eventos = db.eventos ++
            [⟨r.id, ("Recompensa"), r.id, ("AJUSTAR"),
              String.intercalate (", ") (evaluateText (fullTextOf r)).flags⟩]) ∧
      (∀ r : Recompensa, ∀ i sc : Nat, ∀ st : Status,
        DbOp.updateRecompensa i st sc ∈ handlerOps r →
        st = Status.PUBLICADA ∨ st = Status.BANIDA) := by
  refine ⟨?_, ?_, ?_, ?_⟩
  · intro db hre r hr
    rcases (reach_dbInv hre).2 r hr with ⟨h1, h2⟩ | ⟨_, h1, h2⟩ | ⟨_, _, h1, h2⟩ <;>
      rw [h1, h2] <;> simp
  · intro id uid t d c
    exact ⟨rfl, rfl⟩
  · intro db jid r hf hb h40
    rw [workerStep_found hf, handlerOps_adjust hb h40]
    simp only [List.foldl_cons, List.foldl_nil]
    exact ⟨recompensas_createEvento _ _, eventos_createEvento _ _⟩
  · intro r i sc st hm
    by_cases hb : (evaluateText (fullTextOf r)).flags.any
        (fun f => jsStartsWith f ("BANNED")) = true
    · rw [handlerOps_banned hb] at hm
      simp at hm
      exact Or.inr hm.2.1
    · rw [Bool.not_eq_true] at hb
      by_cases h40 : 40 ≤ (evaluateText (fullTextOf r)).score
      · rw [handlerOps_adjust hb h40] at hm
        simp at hm
      · rw [handlerOps_approve hb h40] at hm
        simp at hm
        exact Or.inl hm.2.1

/-- Witness for C5: the published listing satisfies the iff, and the
ADJUST scenario (two sensitive hits, score 60) leaves the store untouched
while appending the `AJUSTAR` event. -/
theorem claim_riskscore_iff_terminal_witness :
    ((pubListingDone.riskScore.isSome = true) ↔
        (pubListingDone.status = Status.PUBLICADA ∨
          pubListingDone.status = Status.BANIDA)) ∧
      (workerStep adjDb 1).recompensas = adjDb.recompensas ∧
      (workerStep adjDb 1).eventos = adjDb.eventos ++
        [⟨adjListing.id, ("Recompensa"), adjListing.id, ("AJUSTAR"),
          String.intercalate (", ") (evaluateText (fullTextOf adjListing)).flags⟩] := by
  refine ⟨?_, ?_⟩
  · exact claim_riskscore_iff_terminal.1 pubDbDone
      (Reach.work pubDb 1
        (Reach.create ⟨[], []⟩ 1 1 ("a") ("b") ("c") Reach.init (by simp)))
      pubListingDone (by decide)
  · exact claim_riskscore_iff_terminal.2.2.1 adjDb 1 adjListing (by decide)
      (by decide) (by decide)

/-- C9: the score is monotone — a text whose matched banned and sensitive
terms and currency/urgency patterns include those of another scores at
least as much, so adding content that only adds matches never decreases the
score — and the total score depends only on which terms and patterns match,
hence is independent of the order in which the matches occur in the
text. -/
theorem claim_score_monotone_orderfree :
    (∀ t1 t2 : String,
        (∀ w ∈ BANNED, includes (jsToLowerCase t1) w = true →
          includes (jsToLowerCase t2) w = true) →
        (∀ w ∈ SENSITIVE, includes (jsToLowerCase t1) w = true →
          includes (jsToLowerCase t2) w = true) →
        (currencyTest (jsToLowerCase t1) = true →
          currencyTest (jsToLowerCase t2) = true) →
        (hasUrgency (jsToLowerCase t1) = true →
          hasUrgency (jsToLowerCase t2) = true) →
        (evaluateText t1).score ≤ (evaluateText t2).score) ∧
      ∀ t1 t2 : String,
        matchedBanned t1 = matchedBanned t2 →
        matchedSensitive t1 = matchedSensitive t2 →
        currencyTest (jsToLowerCase t1) = currencyTest (jsToLowerCase t2) →
        hasUrgency (jsToLowerCase t1) = hasUrgency (jsToLowerCase t2) →
        (evaluateText t1).score = (evaluateText t2).score := by
  constructor
  · intro t1 t2 hB hS hC hU
    rw [evaluateText_score, evaluateText_score]
    have hb : (matchedBanned t1).length ≤ (matchedBanned t2).length :=
      length_filter_le_of_mem_imp hB
    have hs : (matchedSensitive t1).length ≤ (matchedSensitive t2).length :=
      length_filter_le_of_mem_imp hS
    have hc : (if currencyTest (jsToLowerCase t1) then 5 else 0) ≤
        (if currencyTest (jsToLowerCase t2) then (5 : Nat) else 0) := by
      by_cases h1 : currencyTest (jsToLowerCase t1) = true
      · rw [if_pos h1, if_pos (hC h1)]
      · rw [if_neg h1]
        exact Nat.zero_le _
    have hu : (if hasUrgency (jsToLowerCase t1) then 5 else 0) ≤
        (if hasUrgency (jsToLowerCase t2) then (5 : Nat) else 0) := by
      by_cases h1 : hasUrgency (jsToLowerCase t1) = true
      · rw [if_pos h1, if_pos (hU h1)]
      · rw [if_neg h1]
        exact Nat.zero_le _
    exact Nat.add_le_add (Nat.add_le_add (Nat.add_le_add
      (Nat.mul_le_mul_left 100 hb) (Nat.mul_le_mul_left 30 hs)) hc) hu
  · intro t1 t2 h1 h2 h3 h4
    rw [evaluateText_score, evaluateText_score, h1, h2, h3, h4]

/-- Witness for C9: concrete instances of monotonicity and order
independence. -/
theorem claim_score_monotone_orderfree_witness :
    (evaluateText ("senha")).score ≤ (evaluateText ("senha urgente")).score ∧
      (evaluateText ("12 senha")).score = (evaluateText ("senha 12")).score := by
  constructor
  · exact claim_score_monotone_orderfree.1 ("senha") ("senha urgente")
      (by decide) (by decide) (by decide) (by decide)
  · exact claim_score_monotone_orderfree.2 ("12 senha") ("senha 12")
      (by decide) (by decide) (by decide) (by decide)

theorem handlerOps_update_id (r2 : Recompensa) (i : Nat) (st : Status)
    (sc : Nat) (hm : DbOp.updateRecompensa i st sc ∈ handlerOps r2) :
    i = r2.id := by
  by_cases hb : (evaluateText (fullTextOf r2)).flags.any
      (fun f => jsStartsWith f ("BANNED")) = true
  · rw [handlerOps_banned hb] at hm
    simp at hm
    exact hm.1
  · rw [Bool.not_eq_true] at hb
    by_cases h40 : 40 ≤ (evaluateText (fullTextOf r2)).score
    · rw [handlerOps_adjust hb h40] at hm
      simp at hm
    · rw [handlerOps_approve hb h40] at hm
      simp at hm
      exact hm.1

theorem updFun_fixes_terminal (r : Recompensa) (hInv : ListingInv r)
    (hterm : r.status = Status.PUBLICADA ∨ r.status = Status.BANIDA)
    (i : Nat) (st : Status) (sc : Nat)
    (hm : DbOp.updateRecompensa i st sc ∈ handlerOps r) :
    updFun i st sc r = r := by
  by_cases hb : (evaluateText (fullTextOf r)).flags.any
      (fun f => jsStartsWith f ("BANNED")) = true
  · rw [handlerOps_banned hb] at hm
    simp at hm
    obtain ⟨hi, hst, hsc⟩ := hm
    subst hi
    subst hst
    subst hsc
    rcases hInv with ⟨hs, _⟩ | ⟨_, hs, hrs⟩ | ⟨hb3, _, _, _⟩
    · simp [hs] at hterm
    · exact updFun_self r _ _ hs hrs
    · simp [hb] at hb3
  · rw [Bool.not_eq_true] at hb
    by_cases h40 : 40 ≤ (evaluateText (fullTextOf r)).score
    · rw [handlerOps_adjust hb h40] at hm
      simp at hm
    · rw [handlerOps_approve hb h40] at hm
      simp at hm
      obtain ⟨hi, hst, hsc⟩ := hm
      subst hi
      subst hst
      subst hsc
      rcases hInv with ⟨hs, _⟩ | ⟨hb2, _, _⟩ | ⟨_, _, hs, hrs⟩
      · simp [hs] at hterm
      · simp [hb2] at hb
      · exact updFun_self r _ _ hs hrs

/-- C2 counterexample: after the listing of `pubDb` reaches the terminal
state `PUBLICADA`, re-delivering the same job is not a status-conditional
no-op: the handler issues the listing-store update again — the update is
keyed on id alone, with no condition on the current status — and appends a
second ledger event. -/
theorem claim_single_transition_counterexample :
    (findRec pubDbDone 1).map Recompensa.status = some Status.PUBLICADA ∧
      (findRec pubDbDone 1).map
          (fun r => (handlerOps r).countP isUpdateOp) = some 1 ∧
      (workerStep pubDbDone 1).eventos.length = 2 := by
  decide

/-- C2 amended: on reachable states the status changes value at most once —
once a listing is terminal (`PUBLICADA` or `BANIDA`), no further delivery,
complete or interrupted, alters its status or riskScore, and there is no
transition out of a terminal state.  This holds not because the update is
conditional on the current status (it is keyed on id alone and is re-issued
on redelivery, as the counterexample shows), but because the handler
deterministically recomputes the same decision from the immutable text and
rewrites the same values. -/
theorem claim_terminal_fixed (db : Db) (hre : Reach db) (r : Recompensa)
    (hr : r ∈ db.recompensas)
    (hterm : r.status = Status.PUBLICADA ∨ r.status = Status.BANIDA)
    (jid k : Nat) :
    findRec (workerStepUpTo db jid k) r.id = some r ∧
      findRec (workerStep db jid) r.id = some r := by
  obtain ⟨hnd, hinv⟩ := reach_dbInv hre
  have hfr : findRec db r.id = some r := findRec_of_mem_nodup hnd hr
  have main : ∀ m : Nat, findRec (workerStepUpTo db jid m) r.id = some r := by
    intro m
    cases hf : findRec db jid with
    | none =>
      unfold workerStepUpTo
      rw [hf]
      exact hfr
    | some r2 =>
      rw [workerStepUpTo_found m hf]
      have hfix : ∀ i : Nat, ∀ st : Status, ∀ sc : Nat,
          DbOp.updateRecompensa i st sc ∈ handlerOps r2 →
          updFun i st sc r = r := by
        intro i st sc hm
        have hi : i = r2.id := handlerOps_update_id r2 i st sc hm
        by_cases hid : r2.id = r.id
        · have hr2mem := findRec_memRec hf
          have hrr : r2 = r := List.inj_on_of_nodup_map hnd hr2mem hr hid
          rw [hrr] at hm
          exact updFun_fixes_terminal r (hinv r hr) hterm i st sc hm
        · rw [updFun, if_neg]
          intro hcon
          exact hid (hcon.trans hi).symm
      exact findRec_preserved_foldl db r _ hfr
        (fun i st sc hm => hfix i st sc (List.mem_of_mem_take hm))
  exact ⟨main k, by rw [workerStep_eq_upTo_two]; exact main 2⟩

/-- Witness for the amended C2 at the published scenario. -/
theorem claim_terminal_fixed_witness :
    findRec (workerStepUpTo pubDbDone 1 1) 1 = some pubListingDone ∧
      findRec (workerStep pubDbDone 1) 1 = some pubListingDone :=
  claim_terminal_fixed pubDbDone
    (Reach.work pubDb 1
      (Reach.create ⟨[], []⟩ 1 1 ("a") ("b") ("c") Reach.init (by simp)))
    pubListingDone (by decide) (Or.inl rfl) 1 1

/-- C3 counterexample: running the `sequestro` job with the ledger append
failing (only the first write executes) leaves the listing already
transitioned to `BANIDA` with the risk score persisted and no event
recorded: the update and the append are not applied as one atomic unit, and
the state observed after the failure has changed. -/
theorem claim_atomic_unit_counterexample :
    (workerStepUpTo seqDb 1 1).eventos = [] ∧
      findRec (workerStepUpTo seqDb 1 1) 1 =
        some ⟨1, 1, ("x"), ("sequestro"), ("c"), Status.BANIDA, some 100⟩ ∧
      ¬ workerStepUpTo seqDb 1 1 = seqDb := by
  decide

/-- C3 amended: the store update and the ledger append are sequential, not
atomic.  When the `(k+1)`-th write fails the handler raises and the whole
job retries, with the earlier writes already persisted; the retry then
converges to exactly the state of an uninterrupted run, because the handler
recomputes the same decision from the unchanged text and the update is
idempotent (so the ledger event is appended once overall). -/
theorem claim_partial_failure_retry (db : Db) (jid k : Nat) (r : Recompensa)
    (hfind : findRec db jid = some r) (hk : k < (handlerOps r).length) :
    workerStep (workerStepUpTo db jid k) jid = workerStep db jid := by
  rw [workerStepUpTo_found k hfind]
  by_cases hb : (evaluateText (fullTextOf r)).flags.any
      (fun f => jsStartsWith f ("BANNED")) = true
  · rw [handlerOps_banned hb] at hk ⊢
    have hk2 : k < 2 := by simpa using hk
    interval_cases k
    · simp only [List.take_zero, List.foldl_nil]
    · simp only [List.take_succ_cons, List.take_zero, List.foldl_cons,
        List.foldl_nil]
      have hf1 : findRec (applyOp db (DbOp.updateRecompensa r.id Status.BANIDA
          (evaluateText (fullTextOf r)).score)) jid =
          some (updFun r.id Status.BANIDA
            (evaluateText (fullTextOf r)).score r) := by
        rw [findRec_update, hfind, Option.map_some']
      rw [workerStep_found hf1, handlerOps_updFun, handlerOps_banned hb,
        workerStep_found hfind, handlerOps_banned hb]
      simp only [List.foldl_cons, List.foldl_nil]
      rw [applyOp_update_idem]
  · rw [Bool.not_eq_true] at hb
    by_cases h40 : 40 ≤ (evaluateText (fullTextOf r)).score
    · rw [handlerOps_adjust hb h40] at hk ⊢
      have hk1 : k < 1 := by simpa using hk
      interval_cases k
      simp only [List.take_zero, List.foldl_nil]
    · rw [handlerOps_approve hb h40] at hk ⊢
      have hk2 : k < 2 := by simpa using hk
      interval_cases k
      · simp only [List.take_zero, List.foldl_nil]
      · simp only [List.take_succ_cons, List.take_zero, List.foldl_cons,
          List.foldl_nil]
        have hf1 : findRec (applyOp db (DbOp.updateRecompensa r.id
            Status.PUBLICADA (evaluateText (fullTextOf r)).score)) jid =
            some (updFun r.id Status.PUBLICADA
              (evaluateText (fullTextOf r)).score r) := by
          rw [findRec_update, hfind, Option.map_some']
        rw [workerStep_found hf1, handlerOps_updFun, handlerOps_approve hb h40,
          workerStep_found hfind, handlerOps_approve hb h40]
        simp only [List.foldl_cons, List.foldl_nil]
        rw [applyOp_update_idem]

/-- Witness for the amended C3: the `sequestro` job interrupted after its
first write converges on retry. -/
theorem claim_partial_failure_retry_witness :
    workerStep (workerStepUpTo seqDb 1 1) 1 = workerStep seqDb 1 :=
  claim_partial_failure_retry seqDb 1 1 seqListing (by decide) (by decide)

end Recomp
